import Mathlib

/-!
Verification of the hardlinks graph driver
(`daemon/graphdriver/hardlinks`): the mount reference tracker
(`Driver.Get` / `Driver.Put` / `Driver.Exists`), the layer directory
manager (`Driver.Create` / `Driver.Remove`), the diff applier
(`Driver.ApplyDiff`) and the fallback wrapper
(`naiveDiffDriverWithApply.ApplyDiff`).

Two embeddings are used, each faithful to the operations the source
performs:

* a string-path model for the mount reference tracker, because the
  source manipulates paths as Go strings through `path.Join` (and the
  behaviour of `Driver.Exists` on a full path hinges on exactly that);
* a tree model of the on-disk state rooted at the driver home
  directory for `Create` / `Remove` / `ApplyDiff`, with explicit
  inode numbers on regular files so that hardlink sharing is
  expressible.

External collaborators (the OS stat/mount/unmount syscalls, the
archive extraction engine `chrootarchive.ApplyUncompressedLayer`,
`ioutil.TempDir` name generation) are modelled by oracles carried in
an environment record, exactly at the granularity the source observes
them: success or failure, a produced size, and an arbitrary
transformation of the directory the engine writes into.
-/

namespace Hardlinks

/-- Splitting a character list on the slash character, accumulating
the current field in reverse. Structural recursion so that concrete
paths evaluate inside the kernel. -/
def splitCharsOnSlash : List Char → List Char → List String
  | [], acc => [String.mk acc.reverse]
  | c :: rest, acc =>
      if c = '/' then String.mk acc.reverse :: splitCharsOnSlash rest []
      else splitCharsOnSlash rest (c :: acc)

/-- Components of a slash-separated path: the non-empty fields of the
string split on the slash character. Mirrors what Go `path.Clean`
keeps for inputs free of "." and "..". -/
def splitSlash (s : String) : List String :=
  (splitCharsOnSlash s.data []).filter (fun t => t ≠ "")

/-- Interleave a slash between path components. -/
def joinComps : List String → String
  | [] => ""
  | [x] => x
  | x :: y :: rest => x ++ "/" ++ joinComps (y :: rest)

/-- Whether a path string is absolute (its first character is a
slash). -/
def isAbs (s : String) : Bool := s.data.head? = some '/'

/-- Model of Go `path.Join a b` for arguments that contain no "." or
".." segments: concatenate the components of both arguments and keep
the result absolute when the first non-empty argument is absolute.
This is exactly `Clean(a + "/" + b)` on such inputs; in particular
`goJoin "/h" "/h/a/mnt" = "/h/h/a/mnt"`, as Go computes. -/
def goJoin (a b : String) : String :=
  let comps := splitSlash a ++ splitSlash b
  if comps = [] then ""
  else
    let joined := joinComps comps
    if isAbs a ∨ (a = "" ∧ isAbs b) then "/" ++ joined else joined

/-- `ActiveMount` from the source: reference count, resolved path and
whether the path is a live bind mount. The count is a Go `int`. -/
structure ActiveMount where
  count : Int
  path : String
  mounted : Bool
deriving DecidableEq

/-- The driver state the mount reference tracker operates on: the
home directory string and the `active` table (`map[string]*ActiveMount`). -/
structure St where
  home : String
  active : String → Option ActiveMount

/-- Oracle for the OS calls one tracker operation performs:
`os.Stat` success per path, and the outcome of the single
`mount.Mount` / `syscall.Unmount` call the operation may issue. -/
structure Env where
  statOk : String → Bool
  mountOk : Bool
  unmountOk : Bool

/-- Trace events: each mount/unmount syscall invocation, with the
source and target paths and whether the syscall succeeded. -/
inductive Ev where
  | mount (src dst : String) (ok : Bool)
  | unmount (dst : String) (ok : Bool)
deriving DecidableEq

/-- Update of the `active` table at one key. -/
def upd (f : String → Option ActiveMount) (k : String) (v : Option ActiveMount) :
    String → Option ActiveMount :=
  fun x => if x = k then v else f x

/-- `Driver.dir`: `path.Join(d.home, id)`. -/
def dirOf (home id : String) : String := goJoin home id

/-- `Driver.Exists`: `os.Stat(d.dir(id))` succeeds. Note that the
argument is joined onto `home` unconditionally, even when a caller
passes a full path rather than a layer id. -/
def existsD (env : Env) (home : String) (id : String) : Bool :=
  env.statOk (dirOf home id)

/-- `Driver.Get`: if a record is active, bump its count and return its
cached path; otherwise stat the layer dir and its `root`, use `root`
directly when `mnt` is absent (image layer), else bind mount `root`
onto `mnt` and record a mounted entry. A failed stat or mount stores
no record. Returns (result, new state, syscall trace). -/
def getOp (env : Env) (st : St) (id mountLabel : String) :
    Except String String × St × List Ev :=
  match st.active id with
  | some m =>
      (Except.ok m.path,
       { st with active := upd st.active id (some { m with count := m.count + 1 }) },
       [])
  | none =>
      let dir := dirOf st.home id
      if env.statOk dir = false then
        (Except.error ("links: Directory " ++ dir ++ " is not present"), st, [])
      else
        let rootDir := goJoin dir "root"
        if env.statOk rootDir = false then
          (Except.error ("links: Directory " ++ rootDir ++ " is not present"), st, [])
        else
          let mntDir := goJoin dir "mnt"
          if env.statOk mntDir = false then
            (Except.ok rootDir,
             { st with active := upd st.active id (some ⟨1, rootDir, false⟩) },
             [])
          else
            if env.mountOk then
              (Except.ok mntDir,
               { st with active := upd st.active id (some ⟨1, mntDir, true⟩) },
               [Ev.mount rootDir mntDir true])
            else
              (Except.error ("links: Failed to bind mount " ++ rootDir ++ " on " ++ mntDir),
               st, [Ev.mount rootDir mntDir false])

/-- `Driver.Put`: with no active record, best-effort unmount guarded
by `d.Exists(id)` and `d.Exists(mntDir)` — the latter re-joins `home`
onto the already-full path `mntDir`, exactly as the source does — and
return success. With a record, decrement; on reaching zero delete the
record and, when it was mounted, unmount and return the unmount
error. -/
def putOp (env : Env) (st : St) (id : String) :
    Except String Unit × St × List Ev :=
  match st.active id with
  | none =>
      if existsD env st.home id then
        let mntDir := goJoin (dirOf st.home id) "mnt"
        if existsD env st.home mntDir then
          (Except.ok (), st, [Ev.unmount mntDir env.unmountOk])
        else (Except.ok (), st, [])
      else (Except.ok (), st, [])
  | some m =>
      let c := m.count - 1
      if c > 0 then
        (Except.ok (), { st with active := upd st.active id (some { m with count := c }) }, [])
      else
        let st' : St := { st with active := upd st.active id none }
        if m.mounted then
          if env.unmountOk then
            (Except.ok (), st', [Ev.unmount m.path true])
          else
            (Except.error ("hardlinks: Failed to unmount " ++ m.path), st',
             [Ev.unmount m.path false])
        else (Except.ok (), st', [])

/-- `n` consecutive `Get` calls on the same id and label, collecting
the syscall trace. -/
def runGets (env : Env) (st : St) (id mountLabel : String) : Nat → St × List Ev
  | 0 => (st, [])
  | Nat.succ n =>
      let r := getOp env st id mountLabel
      let rest := runGets env r.2.1 id mountLabel n
      (rest.1, r.2.2 ++ rest.2)

/-- `n` consecutive `Put` calls on the same id, collecting the
syscall trace. -/
def runPuts (env : Env) (st : St) (id : String) : Nat → St × List Ev
  | 0 => (st, [])
  | Nat.succ n =>
      let r := putOp env st id
      let rest := runPuts env r.2.1 id n
      (rest.1, r.2.2 ++ rest.2)

/-- Auxiliary: `Put` on an id with no active record always returns
success, whatever the filesystem looks like. -/
theorem putOp_no_record_ok (env : Env) (st : St) (id : String)
    (h : st.active id = none) : (putOp env st id).1 = Except.ok () := by
  simp only [putOp, h]
  split
  · split <;> rfl
  · rfl

/-- Claim C7 (counterexample setup): a state holding one mounted
record with count 1 for layer "a". -/
def stC7 : St :=
  { home := "/h",
    active := fun k => if k = "a" then some ⟨1, "/h/a/mnt", true⟩ else none }

/-- Claim C7 (counterexample setup): every stat succeeds, mounts
succeed, the unmount syscall fails. -/
def envC7 : Env :=
  { statOk := fun _ => true, mountOk := true, unmountOk := false }

/-- Claim C7 (counterexample): `Put` can report failure. Releasing the
last reference of a mounted record while the unmount syscall fails
makes `Put` return the unmount error: the source ends the final
release branch with `return err` after logging. -/
theorem putOp_reports_failure :
    (putOp envC7 stC7 "a").1 =
      Except.error "hardlinks: Failed to unmount /h/a/mnt" := by
  rfl

/-- Claim C7 (amended): `Put(id)` returns success in every case
except one: it returns an error exactly when an active record exists
whose count is about to reach zero, the record is mounted, and the
unmount syscall fails. Even in that failing case the record is still
removed from the table. -/
theorem put_error_only_on_final_unmount_failure (env : Env) (st : St) (id : String) :
    ((putOp env st id).1 = Except.ok () ↔
      ¬ ∃ m, st.active id = some m ∧ m.count ≤ 1 ∧ m.mounted = true ∧
        env.unmountOk = false) ∧
    (∀ m, st.active id = some m → m.count ≤ 1 →
      (putOp env st id).2.1.active id = none) := by
  constructor
  · constructor
    · rintro hok ⟨m, hm, hle, hmt, hu⟩
      simp only [putOp, hm, hmt, hu] at hok
      rw [if_neg (by omega : ¬ m.count - 1 > 0)] at hok
      simp at hok
    · intro hne
      cases h : st.active id with
      | none => exact putOp_no_record_ok env st id h
      | some m =>
          simp only [putOp, h]
          by_cases hc : m.count - 1 > 0
          · rw [if_pos hc]
          · rw [if_neg hc]
            cases hmt : m.mounted with
            | false => simp
            | true =>
                cases hu : env.unmountOk with
                | true => simp
                | false => exact absurd ⟨m, h, by omega, hmt, hu⟩ hne
  · intro m hm hle
    simp only [putOp, hm]
    rw [if_neg (by omega : ¬ m.count - 1 > 0)]
    cases hmt : m.mounted with
    | false => simp [upd]
    | true =>
        cases hu : env.unmountOk with
        | true => simp [upd]
        | false => simp [upd]

/-- Claim C7 (witness for the amended theorem): at the concrete
failing input, the record for "a" is removed from the table even
though the unmount failed. -/
theorem put_error_only_on_final_unmount_failure_witness :
    (putOp envC7 stC7 "a").2.1.active "a" = none :=
  (put_error_only_on_final_unmount_failure envC7 stC7 "a").2
    ⟨1, "/h/a/mnt", true⟩ rfl (by decide)

/-- Claim C8 (setup): no active record; on disk, `/h/a` and
`/h/a/mnt` exist and nothing else does. -/
def envC8 : Env :=
  { statOk := fun s => s == "/h/a" || s == "/h/a/mnt",
    mountOk := true, unmountOk := true }

/-- Claim C8 (setup): driver with home `/h` and an empty table. -/
def stC8 : St := { home := "/h", active := fun _ => none }

/-- Claim C8 (failing input): `Put("a")` with no record does return
success, but although `home/a/mnt` exists on disk it attempts no
unmount: the guard calls `Driver.Exists` on the full path
`/h/a/mnt`, which re-joins `home` and stats `/h/h/a/mnt` instead, so
the best-effort unmount branch is skipped. -/
theorem put_no_record_unmount_skipped :
    (putOp envC8 stC8 "a").1 = Except.ok () ∧
    (putOp envC8 stC8 "a").2.2 = [] ∧
    envC8.statOk (goJoin (dirOf "/h" "a") "mnt") = true ∧
    existsD envC8 "/h" (goJoin (dirOf "/h" "a") "mnt") = false := by
  refine ⟨rfl, rfl, rfl, rfl⟩

/-- The table invariant: every record present has count at least 1. -/
def TableInv (a : String → Option ActiveMount) : Prop :=
  ∀ i m, a i = some m → 1 ≤ m.count

/-- Active tables reachable from the freshly initialised driver (the
empty table built by `Init`) by any sequence of `Get` and `Put`
calls, under arbitrary environments. -/
inductive Reach (home : String) : (String → Option ActiveMount) → Prop where
  | init : Reach home (fun _ => none)
  | stepGet (a : String → Option ActiveMount) (env : Env) (id mountLabel : String) :
      Reach home a → Reach home ((getOp env ⟨home, a⟩ id mountLabel).2.1.active)
  | stepPut (a : String → Option ActiveMount) (env : Env) (id : String) :
      Reach home a → Reach home ((putOp env ⟨home, a⟩ id).2.1.active)

/-- One `Get` preserves the table invariant. -/
theorem getOp_preserves_inv (env : Env) (st : St) (id mountLabel : String)
    (h : TableInv st.active) : TableInv (getOp env st id mountLabel).2.1.active := by
  intro j m' hj
  cases hact : st.active id with
  | some m =>
      simp only [getOp, hact, upd] at hj
      by_cases hje : j = id
      · rw [if_pos hje] at hj
        cases hj
        have := h id m hact
        simp only []
        omega
      · rw [if_neg hje] at hj
        exact h j m' hj
  | none =>
      simp only [getOp, hact] at hj
      by_cases h1 : env.statOk (dirOf st.home id) = false
      · rw [if_pos h1] at hj
        exact h j m' hj
      · rw [if_neg h1] at hj
        by_cases h2 : env.statOk (goJoin (dirOf st.home id) "root") = false
        · rw [if_pos h2] at hj
          exact h j m' hj
        · rw [if_neg h2] at hj
          by_cases h3 : env.statOk (goJoin (dirOf st.home id) "mnt") = false
          · rw [if_pos h3] at hj
            simp only [upd] at hj
            by_cases hje : j = id
            · rw [if_pos hje] at hj
              cases hj
              exact le_refl 1
            · rw [if_neg hje] at hj
              exact h j m' hj
          · rw [if_neg h3] at hj
            cases hm : env.mountOk with
            | true =>
                simp only [hm, if_true, upd] at hj
                by_cases hje : j = id
                · rw [if_pos hje] at hj
                  cases hj
                  exact le_refl 1
                · rw [if_neg hje] at hj
                  exact h j m' hj
            | false =>
                simp only [hm, Bool.false_eq_true, if_false] at hj
                exact h j m' hj

/-- One `Put` preserves the table invariant. -/
theorem putOp_preserves_inv (env : Env) (st : St) (id : String)
    (h : TableInv st.active) : TableInv (putOp env st id).2.1.active := by
  intro j m' hj
  cases hact : st.active id with
  | none =>
      simp only [putOp, hact] at hj
      by_cases h1 : existsD env st.home id = true
      · rw [if_pos h1] at hj
        by_cases h2 :
            existsD env st.home (goJoin (dirOf st.home id) "mnt") = true
        · rw [if_pos h2] at hj
          exact h j m' hj
        · rw [if_neg h2] at hj
          exact h j m' hj
      · rw [if_neg h1] at hj
        exact h j m' hj
  | some m =>
      simp only [putOp, hact] at hj
      by_cases hc : m.count - 1 > 0
      · rw [if_pos hc] at hj
        simp only [upd] at hj
        by_cases hje : j = id
        · rw [if_pos hje] at hj
          cases hj
          simp only []
          omega
        · rw [if_neg hje] at hj
          exact h j m' hj
      · rw [if_neg hc] at hj
        have hdel : (upd st.active id none) j = some m' → 1 ≤ m'.count := by
          intro hj'
          simp only [upd] at hj'
          by_cases hje : j = id
          · rw [if_pos hje] at hj'
            exact Option.noConfusion hj'
          · rw [if_neg hje] at hj'
            exact h j m' hj'
        cases hmt : m.mounted with
        | false =>
            simp only [hmt, Bool.false_eq_true, if_false] at hj
            exact hdel hj
        | true =>
            simp only [hmt, if_true] at hj
            cases hu : env.unmountOk with
            | true =>
                simp only [hu, if_true] at hj
                exact hdel hj
            | false =>
                simp only [hu, Bool.false_eq_true, if_false] at hj
                exact hdel hj

/-- Records existing both before and after one `Get` keep their path
and mounted flag: `Get` only ever updates the count. -/
theorem getOp_preserves_fields (env : Env) (st : St) (id mountLabel j : String)
    (m m' : ActiveMount) (hbefore : st.active j = some m)
    (hafter : (getOp env st id mountLabel).2.1.active j = some m') :
    m'.path = m.path ∧ m'.mounted = m.mounted := by
  cases hact : st.active id with
  | some mi =>
      simp only [getOp, hact, upd] at hafter
      by_cases hje : j = id
      · rw [if_pos hje] at hafter
        subst hje
        rw [hbefore] at hact
        cases hact
        cases hafter
        exact ⟨rfl, rfl⟩
      · rw [if_neg hje] at hafter
        rw [hbefore] at hafter
        cases hafter
        exact ⟨rfl, rfl⟩
  | none =>
      have hji : j ≠ id := by
        intro hje
        rw [hje, hact] at hbefore
        exact Option.noConfusion hbefore
      simp only [getOp, hact] at hafter
      by_cases h1 : env.statOk (dirOf st.home id) = false
      · rw [if_pos h1] at hafter
        rw [hbefore] at hafter
        cases hafter
        exact ⟨rfl, rfl⟩
      · rw [if_neg h1] at hafter
        by_cases h2 : env.statOk (goJoin (dirOf st.home id) "root") = false
        · rw [if_pos h2] at hafter
          rw [hbefore] at hafter
          cases hafter
          exact ⟨rfl, rfl⟩
        · rw [if_neg h2] at hafter
          by_cases h3 : env.statOk (goJoin (dirOf st.home id) "mnt") = false
          · rw [if_pos h3] at hafter
            simp only [upd, if_neg hji] at hafter
            rw [hbefore] at hafter
            cases hafter
            exact ⟨rfl, rfl⟩
          · rw [if_neg h3] at hafter
            cases hm : env.mountOk with
            | true =>
                simp only [hm, if_true, upd, if_neg hji] at hafter
                rw [hbefore] at hafter
                cases hafter
                exact ⟨rfl, rfl⟩
            | false =>
                simp only [hm, Bool.false_eq_true, if_false] at hafter
                rw [hbefore] at hafter
                cases hafter
                exact ⟨rfl, rfl⟩

/-- Records existing both before and after one `Put` keep their path
and mounted flag: `Put` only ever updates the count or deletes the
record. -/
theorem putOp_preserves_fields (env : Env) (st : St) (id j : String)
    (m m' : ActiveMount) (hbefore : st.active j = some m)
    (hafter : (putOp env st id).2.1.active j = some m') :
    m'.path = m.path ∧ m'.mounted = m.mounted := by
  cases hact : st.active id with
  | none =>
      have hsame : (putOp env st id).2.1.active = st.active := by
        simp only [putOp, hact]
        by_cases h1 : existsD env st.home id = true
        · rw [if_pos h1]
          by_cases h2 :
              existsD env st.home (goJoin (dirOf st.home id) "mnt") = true
          · rw [if_pos h2]
          · rw [if_neg h2]
        · rw [if_neg h1]
      rw [hsame, hbefore] at hafter
      cases hafter
      exact ⟨rfl, rfl⟩
  | some mi =>
      simp only [putOp, hact] at hafter
      by_cases hc : mi.count - 1 > 0
      · rw [if_pos hc] at hafter
        simp only [upd] at hafter
        by_cases hje : j = id
        · rw [if_pos hje] at hafter
          subst hje
          rw [hbefore] at hact
          cases hact
          cases hafter
          exact ⟨rfl, rfl⟩
        · rw [if_neg hje] at hafter
          rw [hbefore] at hafter
          cases hafter
          exact ⟨rfl, rfl⟩
      · rw [if_neg hc] at hafter
        have hdel : (upd st.active id none) j = some m' →
            m'.path = m.path ∧ m'.mounted = m.mounted := by
          intro hj'
          simp only [upd] at hj'
          by_cases hje : j = id
          · rw [if_pos hje] at hj'
            exact Option.noConfusion hj'
          · rw [if_neg hje] at hj'
            rw [hbefore] at hj'
            cases hj'
            exact ⟨rfl, rfl⟩
        cases hmt : mi.mounted with
        | false =>
            simp only [hmt, Bool.false_eq_true, if_false] at hafter
            exact hdel hafter
        | true =>
            simp only [hmt, if_true] at hafter
            cases hu : env.unmountOk with
            | true =>
                simp only [hu, if_true] at hafter
                exact hdel hafter
            | false =>
                simp only [hu, Bool.false_eq_true, if_false] at hafter
                exact hdel hafter

/-- Claim C10: in every active-table state reachable by any sequence
of `Get` and `Put` calls, each record present has count at least 1,
and across any further `Get` or `Put` a record present before and
after keeps its path and mounted flag unchanged — only the count is
ever updated. -/
theorem active_table_invariant (home : String) (a : String → Option ActiveMount)
    (h : Reach home a) :
    TableInv a ∧
    (∀ env id mountLabel j m m', a j = some m →
      (getOp env ⟨home, a⟩ id mountLabel).2.1.active j = some m' →
      m'.path = m.path ∧ m'.mounted = m.mounted) ∧
    (∀ env id j m m', a j = some m →
      (putOp env ⟨home, a⟩ id).2.1.active j = some m' →
      m'.path = m.path ∧ m'.mounted = m.mounted) := by
  refine ⟨?_, ?_, ?_⟩
  · induction h with
    | init => intro i m hm; exact Option.noConfusion hm
    | stepGet a env id mountLabel _ ih => exact getOp_preserves_inv env ⟨home, a⟩ id mountLabel ih
    | stepPut a env id _ ih => exact putOp_preserves_inv env ⟨home, a⟩ id ih
  · intro env id mountLabel j m m' hb ha
    exact getOp_preserves_fields env ⟨home, a⟩ id mountLabel j m m' hb ha
  · intro env id j m m' hb ha
    exact putOp_preserves_fields env ⟨home, a⟩ id j m m' hb ha

/-- Claim C10 (witness): the invariant holds at the initial reachable
state, and the field-preservation clauses apply to a concrete record
carried across a concrete `Get`. -/
theorem active_table_invariant_witness :
    TableInv (fun _ => none) ∧
    (∀ env id mountLabel j m m', (fun _ => none : String → Option ActiveMount) j = some m →
      (getOp env ⟨"/h", fun _ => none⟩ id mountLabel).2.1.active j = some m' →
      m'.path = m.path ∧ m'.mounted = m.mounted) ∧
    (∀ env id j m m', (fun _ => none : String → Option ActiveMount) j = some m →
      (putOp env ⟨"/h", fun _ => none⟩ id).2.1.active j = some m' →
      m'.path = m.path ∧ m'.mounted = m.mounted) :=
  active_table_invariant "/h" (fun _ => none) Reach.init

/-- A first `Get` on an id with no record, with the layer dir and its
root present and the mount syscall succeeding: it either bind mounts
(when `mnt` exists) or returns `root` directly (image layer). -/
theorem getOp_first (env : Env) (st : St) (id mountLabel : String)
    (h0 : st.active id = none)
    (hdir : env.statOk (dirOf st.home id) = true)
    (hroot : env.statOk (goJoin (dirOf st.home id) "root") = true)
    (hmount : env.mountOk = true) :
    getOp env st id mountLabel =
      if env.statOk (goJoin (dirOf st.home id) "mnt") then
        (Except.ok (goJoin (dirOf st.home id) "mnt"),
         { st with active := upd st.active id (some ⟨1, goJoin (dirOf st.home id) "mnt", true⟩) },
         [Ev.mount (goJoin (dirOf st.home id) "root")
            (goJoin (dirOf st.home id) "mnt") true])
      else
        (Except.ok (goJoin (dirOf st.home id) "root"),
         { st with active := upd st.active id (some ⟨1, goJoin (dirOf st.home id) "root", false⟩) },
         []) := by
  simp only [getOp, h0, hdir, hroot, hmount]
  cases hmnt : env.statOk (goJoin (dirOf st.home id) "mnt") with
  | true => simp
  | false => simp

/-- Repeated `Get` calls on an id that already has a record only bump
its count, produce no syscalls, and leave the home unchanged. -/
theorem runGets_cached (env : Env) (id mountLabel : String) (n : Nat) :
    ∀ (st : St) (m : ActiveMount), st.active id = some m →
    (runGets env st id mountLabel n).1.active id =
      some ⟨m.count + n, m.path, m.mounted⟩ ∧
    (runGets env st id mountLabel n).2 = [] := by
  induction n with
  | zero =>
      intro st m h
      refine ⟨?_, rfl⟩
      simp only [runGets, h]
      congr 1
      cases m with
      | mk c p mt => simp
  | succ n ih =>
      intro st m h
      have hstep : getOp env st id mountLabel =
          (Except.ok m.path,
           { st with active := upd st.active id (some { m with count := m.count + 1 }) },
           []) := by
        simp only [getOp, h]
      have hrec :
          ({ st with active := upd st.active id (some { m with count := m.count + 1 }) } : St).active id =
          some { m with count := m.count + 1 } := by
        simp [upd]
      obtain ⟨ha, ht⟩ := ih _ _ hrec
      constructor
      · show (runGets env (getOp env st id mountLabel).2.1 id mountLabel n).1.active id = _
        rw [hstep]
        rw [ha]
        congr 2
        push_cast
        ring
      · show (getOp env st id mountLabel).2.2 ++
            (runGets env (getOp env st id mountLabel).2.1 id mountLabel n).2 = []
        rw [hstep]
        simp only [List.nil_append]
        exact ht

/-- Fewer `Put` calls than the current count: each call only
decrements the count; no record removal and no syscalls. -/
theorem runPuts_dec (env : Env) (id : String) (n : Nat) :
    ∀ (st : St) (c : Int) (p : String) (mt : Bool),
    st.active id = some ⟨c, p, mt⟩ → (n : Int) < c →
    (runPuts env st id n).1.active id = some ⟨c - n, p, mt⟩ ∧
    (runPuts env st id n).2 = [] := by
  induction n with
  | zero =>
      intro st c p mt h _
      refine ⟨?_, rfl⟩
      simp only [runPuts, h]
      congr 2
      push_cast
      ring
  | succ n ih =>
      intro st c p mt h hlt
      have hc : c - 1 > 0 := by
        have : ((n : Int) + 1) < c := by push_cast at hlt ⊢; omega
        omega
      have hstep : putOp env st id =
          (Except.ok (), { st with active := upd st.active id (some ⟨c - 1, p, mt⟩) }, []) := by
        simp only [putOp, h]
        rw [if_pos hc]
      have hrec :
          ({ st with active := upd st.active id (some ⟨c - 1, p, mt⟩) } : St).active id =
          some ⟨c - 1, p, mt⟩ := by
        simp [upd]
      have hlt' : (n : Int) < c - 1 := by push_cast at hlt ⊢; omega
      obtain ⟨ha, ht⟩ := ih _ _ _ _ hrec hlt'
      constructor
      · show (runPuts env (putOp env st id).2.1 id n).1.active id = _
        rw [hstep]
        rw [ha]
        congr 2
        push_cast
        ring
      · show (putOp env st id).2.2 ++ (runPuts env (putOp env st id).2.1 id n).2 = []
        rw [hstep]
        simp only [List.nil_append]
        exact ht

/-- Exactly `count` many `Put` calls: the record is removed, and when
it was a mounted record the unmount syscall is issued exactly once,
by the last call (all earlier calls produce no events). -/
theorem runPuts_final (env : Env) (id : String) (n : Nat) :
    ∀ (st : St) (p : String) (mt : Bool),
    st.active id = some ⟨(n : Int), p, mt⟩ → 1 ≤ n → env.unmountOk = true →
    (runPuts env st id n).1.active id = none ∧
    (runPuts env st id n).2 = (if mt then [Ev.unmount p true] else []) := by
  induction n with
  | zero => intro st p mt _ h1; omega
  | succ n ih =>
      intro st p mt h _ hu
      by_cases hn : n = 0
      · subst hn
        norm_num at h
        have hstep : putOp env st id =
            ((if mt then Except.ok () else Except.ok ()),
             { st with active := upd st.active id none },
             (if mt then [Ev.unmount p true] else [])) := by
          simp only [putOp, h]
          rw [if_neg (by norm_num : ¬ ((1 : Int) - 1 > 0))]
          cases mt with
          | true => simp [hu]
          | false => simp
        constructor
        · show (runPuts env (putOp env st id).2.1 id 0).1.active id = none
          rw [hstep]
          simp [runPuts, upd]
        · show (putOp env st id).2.2 ++ (runPuts env (putOp env st id).2.1 id 0).2 = _
          rw [hstep]
          simp [runPuts]
      · have hc : ((n : Int) + 1) - 1 > 0 := by
          have : 1 ≤ n := Nat.one_le_iff_ne_zero.mpr hn
          omega
        have hcast : ((n + 1 : Nat) : Int) = (n : Int) + 1 := by push_cast; ring_nf
        rw [hcast] at h
        have hstep : putOp env st id =
            (Except.ok (),
             { st with active := upd st.active id (some ⟨(n : Int), p, mt⟩) },
             []) := by
          simp only [putOp, h]
          rw [if_pos hc]
          congr 3
          ring_nf
        have hrec :
            ({ st with active := upd st.active id (some ⟨(n : Int), p, mt⟩) } : St).active id =
            some ⟨(n : Int), p, mt⟩ := by
          simp [upd]
        obtain ⟨ha, ht⟩ := ih _ _ _ hrec (Nat.one_le_iff_ne_zero.mpr hn) hu
        constructor
        · show (runPuts env (putOp env st id).2.1 id n).1.active id = none
          rw [hstep]
          exact ha
        · show (putOp env st id).2.2 ++ (runPuts env (putOp env st id).2.1 id n).2 = _
          rw [hstep]
          simp only [List.nil_append]
          exact ht

/-- Claim C1 (refcount law): starting with no record for `id`, after
`N ≥ 1` `Get` calls followed by `N` `Put` calls (cumulative Puts never
exceed cumulative Gets at any prefix of this sequence), the active
table holds no record for `id`; when a bind mount was created by the
first `Get` (the layer has a `mnt` directory) the unmount syscall is
issued exactly once, by the `N`-th `Put` — the first `N - 1` Puts
issue no syscalls at all — and when no mount was created no unmount
is ever issued. -/
theorem refcount_law (env : Env) (st : St) (id mountLabel : String) (N : Nat)
    (hN : 1 ≤ N) (h0 : st.active id = none)
    (hdir : env.statOk (dirOf st.home id) = true)
    (hroot : env.statOk (goJoin (dirOf st.home id) "root") = true)
    (hmount : env.mountOk = true) (hunmount : env.unmountOk = true) :
    (runPuts env (runGets env st id mountLabel N).1 id N).1.active id = none ∧
    (runGets env st id mountLabel N).2 =
      (if env.statOk (goJoin (dirOf st.home id) "mnt") then
        [Ev.mount (goJoin (dirOf st.home id) "root")
           (goJoin (dirOf st.home id) "mnt") true]
       else []) ∧
    (runPuts env (runGets env st id mountLabel N).1 id N).2 =
      (if env.statOk (goJoin (dirOf st.home id) "mnt") then
        [Ev.unmount (goJoin (dirOf st.home id) "mnt") true]
       else []) ∧
    (runPuts env (runGets env st id mountLabel N).1 id (N - 1)).2 = [] := by
  obtain ⟨M, rfl⟩ : ∃ M, N = M + 1 := ⟨N - 1, by omega⟩
  have hfirst := getOp_first env st id mountLabel h0 hdir hroot hmount
  cases hmnt : env.statOk (goJoin (dirOf st.home id) "mnt") with
  | true =>
      rw [hmnt] at hfirst
      rw [if_pos rfl] at hfirst
      have hrec :
          ({ st with active := upd st.active id (some ⟨1, goJoin (dirOf st.home id) "mnt", true⟩) } : St).active id =
          some ⟨1, goJoin (dirOf st.home id) "mnt", true⟩ := by
        simp [upd]
      obtain ⟨hga, hgt⟩ := runGets_cached env id mountLabel M _ _ hrec
      have hGstate : (runGets env st id mountLabel (M + 1)).1 =
          (runGets env
            ({ st with active := upd st.active id (some ⟨1, goJoin (dirOf st.home id) "mnt", true⟩) })
            id mountLabel M).1 := by
        show (runGets env (getOp env st id mountLabel).2.1 id mountLabel M).1 = _
        rw [hfirst]
      have hGtrace : (runGets env st id mountLabel (M + 1)).2 =
          [Ev.mount (goJoin (dirOf st.home id) "root")
             (goJoin (dirOf st.home id) "mnt") true] := by
        show (getOp env st id mountLabel).2.2 ++
            (runGets env (getOp env st id mountLabel).2.1 id mountLabel M).2 = _
        rw [hfirst]
        simp [hgt]
      have hga' : (runGets env st id mountLabel (M + 1)).1.active id =
          some ⟨((M + 1 : Nat) : Int), goJoin (dirOf st.home id) "mnt", true⟩ := by
        rw [hGstate, hga]
        simp only [Option.some.injEq, ActiveMount.mk.injEq]
        refine ⟨by push_cast; ring, by trivial, by trivial⟩
      obtain ⟨hpa, hpt⟩ := runPuts_final env id (M + 1) _ _ _ hga' (by omega) hunmount
      obtain ⟨-, hpd⟩ := runPuts_dec env id M _ _ _ _ hga' (by push_cast; omega)
      refine ⟨hpa, hGtrace, ?_, ?_⟩
      · rw [hpt]
      · simpa using hpd
  | false =>
      rw [hmnt] at hfirst
      simp only [Bool.false_eq_true, if_false] at hfirst
      have hrec :
          ({ st with active := upd st.active id (some ⟨1, goJoin (dirOf st.home id) "root", false⟩) } : St).active id =
          some ⟨1, goJoin (dirOf st.home id) "root", false⟩ := by
        simp [upd]
      obtain ⟨hga, hgt⟩ := runGets_cached env id mountLabel M _ _ hrec
      have hGstate : (runGets env st id mountLabel (M + 1)).1 =
          (runGets env
            ({ st with active := upd st.active id (some ⟨1, goJoin (dirOf st.home id) "root", false⟩) })
            id mountLabel M).1 := by
        show (runGets env (getOp env st id mountLabel).2.1 id mountLabel M).1 = _
        rw [hfirst]
      have hGtrace : (runGets env st id mountLabel (M + 1)).2 = [] := by
        show (getOp env st id mountLabel).2.2 ++
            (runGets env (getOp env st id mountLabel).2.1 id mountLabel M).2 = _
        rw [hfirst]
        simp [hgt]
      have hga' : (runGets env st id mountLabel (M + 1)).1.active id =
          some ⟨((M + 1 : Nat) : Int), goJoin (dirOf st.home id) "root", false⟩ := by
        rw [hGstate, hga]
        simp only [Option.some.injEq, ActiveMount.mk.injEq]
        refine ⟨by push_cast; ring, by trivial, by trivial⟩
      obtain ⟨hpa, hpt⟩ := runPuts_final env id (M + 1) _ _ _ hga' (by omega) hunmount
      obtain ⟨-, hpd⟩ := runPuts_dec env id M _ _ _ _ hga' (by push_cast; omega)
      refine ⟨hpa, hGtrace, ?_, ?_⟩
      · rw [hpt]
        simp
      · simpa using hpd

/-- All-permissive environment: every stat succeeds, mount and
unmount syscalls succeed. -/
def envAllOk : Env := { statOk := fun _ => true, mountOk := true, unmountOk := true }

/-- Driver state with home `/h` and an empty active table. -/
def stEmpty : St := { home := "/h", active := fun _ => none }

/-- Claim C1 (witness): the refcount law applied at `N = 2` on layer
"a" with home `/h`, all stats and syscalls succeeding. -/
theorem refcount_law_witness :
    (runPuts envAllOk (runGets envAllOk stEmpty "a" "" 2).1 "a" 2).1.active "a" = none ∧
    (runGets envAllOk stEmpty "a" "" 2).2 =
      (if envAllOk.statOk (goJoin (dirOf stEmpty.home "a") "mnt") then
        [Ev.mount (goJoin (dirOf stEmpty.home "a") "root")
           (goJoin (dirOf stEmpty.home "a") "mnt") true]
       else []) ∧
    (runPuts envAllOk (runGets envAllOk stEmpty "a" "" 2).1 "a" 2).2 =
      (if envAllOk.statOk (goJoin (dirOf stEmpty.home "a") "mnt") then
        [Ev.unmount (goJoin (dirOf stEmpty.home "a") "mnt") true]
       else []) ∧
    (runPuts envAllOk (runGets envAllOk stEmpty "a" "" 2).1 "a" (2 - 1)).2 = [] :=
  refcount_law envAllOk stEmpty "a" "" 2 (by omega) rfl rfl rfl rfl rfl

/-! ## Tree model of the on-disk state

The driver home directory is modelled as a tree; paths are component
lists relative to `home` (so layer `id` lives at `[id]`, its committed
content at `[id, "root"]`). Regular files carry an inode number, so
hardlinks are "same inode at both paths". All recursions are
structural so that concrete states evaluate inside the kernel. -/

/-- A filesystem tree: regular files (with an inode number), symbolic
links, and directories with a named entry list. -/
inductive FsTree where
  | file (inode : Nat)
  | symlink (target : String)
  | dir (entries : List (String × FsTree))

/-- First entry with the given name. -/
def lookupE : List (String × FsTree) → String → Option FsTree
  | [], _ => none
  | (k', t) :: rest, k => if k' = k then some t else lookupE rest k

/-- Replace the first entry with the given name, or append one. -/
def setE : List (String × FsTree) → String → FsTree → List (String × FsTree)
  | [], k, t => [(k, t)]
  | (k', t') :: rest, k, t =>
      if k' = k then (k, t) :: rest else (k', t') :: setE rest k t

/-- Remove every entry with the given name. -/
def removeE : List (String × FsTree) → String → List (String × FsTree)
  | [], _ => []
  | (k', t) :: rest, k =>
      if k' = k then removeE rest k else (k', t) :: removeE rest k

/-- Resolve a path to the subtree it names, if any. -/
def findAux : List String → FsTree → Option FsTree
  | [], t => some t
  | k :: rest, FsTree.dir es =>
      match lookupE es k with
      | some c => findAux rest c
      | none => none
  | _ :: _, _ => none

/-- Resolve a path in a tree. -/
def FsTree.find (t : FsTree) (p : List String) : Option FsTree :=
  findAux p t

/-- Write (`some`) or remove (`none`) the subtree at a path. A write
to a path whose parent is missing or not a directory is a no-op (the
driver only writes under directories it has checked or created). -/
def setAtAux (v : Option FsTree) : List String → FsTree → FsTree
  | [], t => t
  | [k], FsTree.dir es =>
      match v with
      | some t' => FsTree.dir (setE es k t')
      | none => FsTree.dir (removeE es k)
  | [_], t => t
  | k :: k2 :: rest, FsTree.dir es =>
      match lookupE es k with
      | some c => FsTree.dir (setE es k (setAtAux v (k2 :: rest) c))
      | none => FsTree.dir es
  | _ :: _ :: _, t => t

/-- Write or remove the subtree at a path. -/
def FsTree.setAt (t : FsTree) (p : List String) (v : Option FsTree) : FsTree :=
  setAtAux v p t

mutual

/-- Number of directory entries (links) referencing an inode in a
tree. -/
def countInode : FsTree → Nat → Nat
  | FsTree.file j, i => if j = i then 1 else 0
  | FsTree.symlink _, _ => 0
  | FsTree.dir es, i => countEntries es i

/-- Number of links referencing an inode in an entry list. -/
def countEntries : List (String × FsTree) → Nat → Nat
  | [], _ => 0
  | (_, c) :: rest, i => countInode c i + countEntries rest i

end

mutual

/-- Modelled from the spec: the Hardlink Copy Engine
(`copyDir(..., copyHardlink)`, whose source file is not part of this
corpus). Regular files are hardlinked — the copy carries the same
inode — directories are newly created with the same entries, and
symlinks are recreated verbatim, so the produced tree is equal to the
source tree. -/
def copyTree : FsTree → FsTree
  | FsTree.file i => FsTree.file i
  | FsTree.symlink s => FsTree.symlink s
  | FsTree.dir es => FsTree.dir (copyEntries es)

/-- Modelled from the spec: entry-list part of the Hardlink Copy
Engine. -/
def copyEntries : List (String × FsTree) → List (String × FsTree)
  | [] => []
  | (k, c) :: rest => (k, copyTree c) :: copyEntries rest

end

mutual

/-- The hardlink copy of a tree is the tree itself in this
representation: same structure, same inodes. -/
theorem copyTree_eq : ∀ (t : FsTree), copyTree t = t
  | FsTree.file _ => rfl
  | FsTree.symlink _ => rfl
  | FsTree.dir es => congrArg FsTree.dir (copyEntries_eq es)

/-- Entry-list companion of `copyTree_eq`. -/
theorem copyEntries_eq : ∀ (es : List (String × FsTree)), copyEntries es = es
  | [] => rfl
  | (k, c) :: rest => by
      show (k, copyTree c) :: copyEntries rest = (k, c) :: rest
      rw [copyTree_eq c, copyEntries_eq rest]

end

/-- Looking up the name just written finds the written tree. -/
theorem lookupE_setE_self (es : List (String × FsTree)) (k : String) (t : FsTree) :
    lookupE (setE es k t) k = some t := by
  induction es with
  | nil => simp [setE, lookupE]
  | cons e rest ih =>
      obtain ⟨k0, t0⟩ := e
      by_cases h0 : k0 = k
      · simp [setE, h0, lookupE]
      · simp only [setE, if_neg h0, lookupE]
        simpa [h0] using ih

/-- Writing one name leaves lookups of other names unchanged. -/
theorem lookupE_setE_ne (es : List (String × FsTree)) (k k' : String) (t : FsTree)
    (h : k' ≠ k) : lookupE (setE es k t) k' = lookupE es k' := by
  induction es with
  | nil =>
      simp only [setE, lookupE]
      rw [if_neg (fun hh => h hh.symm)]
  | cons e rest ih =>
      obtain ⟨k0, t0⟩ := e
      by_cases h0 : k0 = k
      · subst h0
        simp only [setE, if_pos rfl, lookupE]
        rw [if_neg (fun hh => h hh.symm), if_neg (fun hh => h hh.symm)]
      · simp only [setE, if_neg h0, lookupE]
        by_cases h1 : k0 = k'
        · rw [if_pos h1, if_pos h1]
        · rw [if_neg h1, if_neg h1]
          exact ih

/-- After removing a name it is no longer found. -/
theorem lookupE_removeE_self (es : List (String × FsTree)) (k : String) :
    lookupE (removeE es k) k = none := by
  induction es with
  | nil => simp [removeE, lookupE]
  | cons e rest ih =>
      obtain ⟨k0, t0⟩ := e
      by_cases h0 : k0 = k
      · simpa [removeE, h0] using ih
      · simp only [removeE, if_neg h0, lookupE]
        simpa [h0] using ih

/-- Removing one name leaves lookups of other names unchanged. -/
theorem lookupE_removeE_ne (es : List (String × FsTree)) (k k' : String)
    (h : k' ≠ k) : lookupE (removeE es k) k' = lookupE es k' := by
  induction es with
  | nil => simp [removeE]
  | cons e rest ih =>
      obtain ⟨k0, t0⟩ := e
      by_cases h0 : k0 = k
      · subst h0
        simp only [removeE, if_pos rfl, lookupE]
        rw [if_neg (show ¬ k0 = k' from fun hh => h hh.symm)]
        exact ih
      · simp only [removeE, if_neg h0, lookupE]
        by_cases h1 : k0 = k'
        · rw [if_pos h1, if_pos h1]
        · rw [if_neg h1, if_neg h1]
          exact ih

/-- Resolving a concatenated path resolves the first part, then the
second in the subtree found. -/
theorem find_append (p : List String) : ∀ (t : FsTree) (q : List String),
    t.find (p ++ q) = (t.find p).bind (fun s => s.find q) := by
  induction p with
  | nil => intro t q; simp [FsTree.find, findAux]
  | cons k rest ih =>
      intro t q
      cases t with
      | file i => simp [FsTree.find, findAux]
      | symlink s => simp [FsTree.find, findAux]
      | dir es =>
          simp only [FsTree.find, List.cons_append, findAux]
          cases h : lookupE es k with
          | none => simp
          | some c => simpa using ih c q

/-- Go error values observed by the driver code: the distinguished
`ErrApplyDiffFallback` sentinel (compared by identity in the source),
not-found errors from stat/lstat, and other I/O errors. -/
inductive GoErr where
  | fallback
  | notFound (p : String)
  | io (msg : String)
deriving DecidableEq

/-- Whether the node found at a path is a directory. -/
def isDirOpt : Option FsTree → Bool
  | some (FsTree.dir _) => true
  | _ => false

/-- Whether `rename(2)` may replace the target slot: the target is
absent or an empty directory (renaming onto a non-empty directory
fails with ENOTEMPTY, onto a file with ENOTDIR). -/
def renameTargetOk : Option FsTree → Bool
  | none => true
  | some (FsTree.dir []) => true
  | _ => false

/-- Oracle for the external steps of `Driver.ApplyDiff`: the basename
`ioutil.TempDir` picks, injected failures for temp-dir creation, for
the Hardlink Copy Engine, and for the diff-extraction engine, and —
on success — the byte count the engine reports and the
transformation it applies to the directory content it was given (on
failure, the partial transformation it leaves behind, which the
caller then discards). -/
structure DiffEnv where
  tmpName : String
  tmpFail : Bool
  copyFail : Bool
  extractFail : Bool
  extractSize : Int
  extractFn : FsTree → FsTree
  extractPartialFn : FsTree → FsTree

/-- `Driver.ApplyDiff`: fallback sentinel when `parent` is empty or
the parent `root` is missing; otherwise create a temp dir inside the
layer dir, hardlink-copy the parent root into it, run the extraction
engine on it, atomically rename it onto `root`, and (success only)
remove `mnt`; on any failure the deferred cleanup removes the temp
dir. The live read the copy step performs of the parent root equals
the `prt` captured at the stat: the only mutation so far is the fresh
temp dir entry under `[id]`, which cannot be `[parent, "root"]`
(when `parent = id` and `tmpName = "root"`, the freshness check has
already failed). -/
def driverApplyDiff (env : DiffEnv) (fs : FsTree) (id parent : String) :
    Int × Option GoErr × FsTree :=
  if parent = "" then (0, some GoErr.fallback, fs)
  else
    match fs.find [parent, "root"] with
    | none => (0, some GoErr.fallback, fs)
    | some prt =>
      let tmpPath : List String := [id, env.tmpName]
      if env.tmpFail ∨ isDirOpt (fs.find [id]) = false ∨ (fs.find tmpPath).isSome then
        (0, some (GoErr.io "tempdir"), fs)
      else
        let fsA := fs.setAt tmpPath (some (FsTree.dir []))
        if env.copyFail then
          (0, some (GoErr.io "copydir"), fsA.setAt tmpPath none)
        else
          let copied := copyTree prt
          let fsB := fsA.setAt tmpPath (some copied)
          if env.extractFail then
            (0, some (GoErr.io "extract"),
             (fsB.setAt tmpPath (some (env.extractPartialFn copied))).setAt tmpPath none)
          else
            let fsC := fsB.setAt tmpPath (some (env.extractFn copied))
            match fsC.find tmpPath with
            | some sub =>
                if renameTargetOk (fsC.find [id, "root"]) then
                  (env.extractSize, none,
                   ((fsC.setAt tmpPath none).setAt [id, "root"] (some sub)).setAt
                     [id, "mnt"] none)
                else (0, some (GoErr.io "rename"), fsC.setAt tmpPath none)
            | none => (0, some (GoErr.io "rename"), fsC.setAt tmpPath none)

/-- `naiveDiffDriverWithApply.ApplyDiff`: run the custom
`Driver.ApplyDiff`; when — and only when — it returns the
`ErrApplyDiffFallback` sentinel, delegate to the generic naive-diff
driver on the resulting state; otherwise return the custom result
unchanged. -/
def wrapperApplyDiff (generic : String → String → FsTree → Int × Option GoErr × FsTree)
    (env : DiffEnv) (fs : FsTree) (id parent : String) : Int × Option GoErr × FsTree :=
  let r := driverApplyDiff env fs id parent
  if r.2.1 = some GoErr.fallback then generic id parent r.2.2
  else r

/-- Whenever one of the two fallback checks fires, `ApplyDiff`
returns `(0, fallback)` and the filesystem is untouched. -/
theorem applyDiff_early_fallback (env : DiffEnv) (fs : FsTree) (id parent : String)
    (h : parent = "" ∨ fs.find [parent, "root"] = none) :
    driverApplyDiff env fs id parent = (0, some GoErr.fallback, fs) := by
  cases h with
  | inl h => simp [driverApplyDiff, h]
  | inr h =>
      by_cases hp : parent = ""
      · simp [driverApplyDiff, hp]
      · simp [driverApplyDiff, hp, h]

/-- Once the fallback checks pass, the fallback sentinel can no
longer be produced: every later outcome is success or a non-sentinel
error. -/
theorem applyDiff_no_late_fallback (env : DiffEnv) (fs : FsTree) (id parent : String)
    (prt : FsTree) (hp : parent ≠ "") (hr : fs.find [parent, "root"] = some prt) :
    (driverApplyDiff env fs id parent).2.1 ≠ some GoErr.fallback := by
  simp only [driverApplyDiff, if_neg hp, hr]
  by_cases h1 : env.tmpFail ∨ isDirOpt (fs.find [id]) = false ∨
      (fs.find [id, env.tmpName]).isSome
  · rw [if_pos h1]
    simp
  · rw [if_neg h1]
    by_cases h2 : env.copyFail
    · rw [if_pos h2]
      simp
    · rw [if_neg h2]
      by_cases h3 : env.extractFail
      · rw [if_pos h3]
        simp
      · rw [if_neg h3]
        cases h4 : ((fs.setAt [id, env.tmpName] (some (FsTree.dir []))).setAt
            [id, env.tmpName] (some (copyTree prt))).setAt
            [id, env.tmpName] (some (env.extractFn (copyTree prt))) |>.find
            [id, env.tmpName] with
        | some sub =>
            simp only [h4]
            by_cases h5 : renameTargetOk ((((fs.setAt [id, env.tmpName]
                (some (FsTree.dir []))).setAt [id, env.tmpName]
                (some (copyTree prt))).setAt [id, env.tmpName]
                (some (env.extractFn (copyTree prt)))).find [id, "root"]) = true
            · rw [if_pos h5]
              simp
            · rw [if_neg h5]
              simp
        | none =>
            simp only [h4]
            simp

/-- The sentinel is produced exactly by the two fallback checks. -/
theorem applyDiff_fallback_characterization (env : DiffEnv) (fs : FsTree)
    (id parent : String) :
    (driverApplyDiff env fs id parent).2.1 = some GoErr.fallback ↔
      (parent = "" ∨ fs.find [parent, "root"] = none) := by
  constructor
  · intro h
    by_cases hp : parent = ""
    · exact Or.inl hp
    · cases hr : fs.find [parent, "root"] with
      | none => exact Or.inr rfl
      | some prt => exact absurd h (applyDiff_no_late_fallback env fs id parent prt hp hr)
  · intro h
    rw [applyDiff_early_fallback env fs id parent h]

/-- Claim C2: `ApplyDiff(id, parent, diff)` returns the fallback
sentinel with size 0 and performs no filesystem mutation at all —
in particular none under `home/<id>/` — whenever `parent` is the
empty string, and likewise whenever the parent `root` directory is
missing on disk. -/
theorem applyDiff_fallback_no_mutation (env : DiffEnv) (fs : FsTree) (id parent : String)
    (h : parent = "" ∨ fs.find [parent, "root"] = none) :
    driverApplyDiff env fs id parent = (0, some GoErr.fallback, fs) :=
  applyDiff_early_fallback env fs id parent h

/-- Sample on-disk state: a committed parent layer `p` whose root
holds one regular file. -/
def fsSample : FsTree :=
  FsTree.dir [("p", FsTree.dir [("root", FsTree.dir [("f", FsTree.file 1)])])]

/-- Concrete diff-applier oracle: temp name `tmproot1`, no injected
failures, the engine reports 7 bytes and changes nothing. -/
def envDiffId : DiffEnv :=
  { tmpName := "tmproot1", tmpFail := false, copyFail := false, extractFail := false,
    extractSize := 7, extractFn := fun t => t, extractPartialFn := fun t => t }

/-- Claim C2 (witness): with an empty parent the call returns the
sentinel and the sample state unchanged. -/
theorem applyDiff_fallback_no_mutation_witness :
    driverApplyDiff envDiffId fsSample "b" "" = (0, some GoErr.fallback, fsSample) :=
  applyDiff_fallback_no_mutation envDiffId fsSample "b" "" (Or.inl rfl)

/-- Claim C9: the wrapper invokes the custom `ApplyDiff` first; if
and only if it returns the `ErrApplyDiffFallback` sentinel does the
wrapper delegate to the generic naive-diff driver (on the unchanged
filesystem, since the sentinel is only produced before any mutation)
and return the generic result; any other error, and any successful
size, is returned to the caller unchanged. -/
theorem wrapper_dispatch
    (generic : String → String → FsTree → Int × Option GoErr × FsTree)
    (env : DiffEnv) (fs : FsTree) (id parent : String) :
    ((driverApplyDiff env fs id parent).2.1 = some GoErr.fallback →
       wrapperApplyDiff generic env fs id parent = generic id parent fs) ∧
    ((driverApplyDiff env fs id parent).2.1 ≠ some GoErr.fallback →
       wrapperApplyDiff generic env fs id parent = driverApplyDiff env fs id parent) := by
  constructor
  · intro h
    have hres := applyDiff_early_fallback env fs id parent
      ((applyDiff_fallback_characterization env fs id parent).mp h)
    simp only [wrapperApplyDiff, hres]
    simp
  · intro h
    simp only [wrapperApplyDiff]
    rw [if_neg h]

/-- Generic naive-diff driver sample result for the wrapper witness. -/
def genericSample : String → String → FsTree → Int × Option GoErr × FsTree :=
  fun _ _ fs => (5, none, fs)

/-- Claim C9 (witness): at an empty parent the custom path yields the
sentinel and the wrapper returns the generic result; at a present
parent root the custom path succeeds and its result is returned
unchanged. -/
theorem wrapper_dispatch_witness :
    wrapperApplyDiff genericSample envDiffId fsSample "b" "" =
      genericSample "b" "" fsSample ∧
    wrapperApplyDiff genericSample envDiffId fsSample "c" "p" =
      driverApplyDiff envDiffId fsSample "c" "p" :=
  ⟨(wrapper_dispatch genericSample envDiffId fsSample "b" "").1 rfl,
   (wrapper_dispatch genericSample envDiffId fsSample "c" "p").2 (by decide)⟩

/-- Write-or-remove on an entry list, indexed by an `Option`. -/
def updE (es : List (String × FsTree)) (k : String) : Option FsTree → List (String × FsTree)
  | some t => setE es k t
  | none => removeE es k

/-- Looking up the name just updated yields the update. -/
theorem lookupE_updE_self (es : List (String × FsTree)) (k : String) (v : Option FsTree) :
    lookupE (updE es k v) k = v := by
  cases v with
  | some t => simpa [updE] using lookupE_setE_self es k t
  | none => simpa [updE] using lookupE_removeE_self es k

/-- Updating one name leaves lookups of other names unchanged. -/
theorem lookupE_updE_ne (es : List (String × FsTree)) (k k' : String) (v : Option FsTree)
    (h : k' ≠ k) : lookupE (updE es k v) k' = lookupE es k' := by
  cases v with
  | some t => simpa [updE] using lookupE_setE_ne es k k' t h
  | none => simpa [updE] using lookupE_removeE_ne es k k' h

/-- A two-component write under an existing subdirectory rewrites
that subdirectory entry. -/
theorem setAt_two (es ies : List (String × FsTree)) (a b : String) (v : Option FsTree)
    (h : lookupE es a = some (FsTree.dir ies)) :
    (FsTree.dir es).setAt [a, b] v =
      FsTree.dir (setE es a (FsTree.dir (updE ies b v))) := by
  cases v with
  | some t => simp [FsTree.setAt, setAtAux, h, updE]
  | none => simp [FsTree.setAt, setAtAux, h, updE]

/-- A one-component resolution is an entry lookup. -/
theorem find_one (es : List (String × FsTree)) (a : String) :
    (FsTree.dir es).find [a] = lookupE es a := by
  cases h : lookupE es a with
  | none => simp [FsTree.find, findAux, h]
  | some c => simp [FsTree.find, findAux, h]

/-- A two-component resolution through an existing subdirectory is a
lookup in that subdirectory. -/
theorem find_two (es ies : List (String × FsTree)) (a b : String)
    (h : lookupE es a = some (FsTree.dir ies)) :
    (FsTree.dir es).find [a, b] = lookupE ies b := by
  cases hh : lookupE ies b with
  | none => simp [FsTree.find, findAux, h, hh]
  | some c => simp [FsTree.find, findAux, h, hh]

/-- A successful two-component resolution exposes the tree shape it
traversed. -/
theorem find_two_shape (fs : FsTree) (a b : String) (t : FsTree)
    (h : fs.find [a, b] = some t) :
    ∃ es ces, fs = FsTree.dir es ∧ lookupE es a = some (FsTree.dir ces) ∧
      lookupE ces b = some t := by
  cases fs with
  | file i => simp [FsTree.find, findAux] at h
  | symlink s => simp [FsTree.find, findAux] at h
  | dir es =>
      cases hc : lookupE es a with
      | none => simp [FsTree.find, findAux, hc] at h
      | some c =>
          cases c with
          | file i => simp [FsTree.find, findAux, hc] at h
          | symlink s => simp [FsTree.find, findAux, hc] at h
          | dir ces =>
              refine ⟨es, ces, rfl, hc, ?_⟩
              simp only [FsTree.find, findAux, hc] at h
              cases hl : lookupE ces b with
              | none => rw [hl] at h; exact h
              | some c => rw [hl] at h; exact h

/-- A directory check through `find` exposes the subdirectory. -/
theorem isDir_shape (es : List (String × FsTree)) (a : String)
    (h : isDirOpt ((FsTree.dir es).find [a]) = true) :
    ∃ ies, lookupE es a = some (FsTree.dir ies) := by
  rw [find_one] at h
  cases hc : lookupE es a with
  | none => rw [hc] at h; simp [isDirOpt] at h
  | some c =>
      cases c with
      | file i => rw [hc] at h; simp [isDirOpt] at h
      | symlink s => rw [hc] at h; simp [isDirOpt] at h
      | dir ies => exact ⟨ies, rfl⟩

/-- Claim C3: when `ApplyDiff` fails at any point after the fallback
checks pass — temp-dir creation, hardlink copy, layer extraction, or
the final rename — the error is not the fallback sentinel, the
temporary directory is gone from the resulting state (it was removed,
or never created when temp-dir creation itself failed), and the layer
`root` is exactly what it was before the call: a partial diff is
never committed. `hfresh` states that the temp name `TempDir` picked
did not collide with an existing entry, and `htmp` that it is not the
literal name `root` (`TempDir` names carry the `tmproot` prefix). -/
theorem applyDiff_failure_rollback (env : DiffEnv) (fs : FsTree) (id parent : String)
    (prt : FsTree) (e : GoErr)
    (hp : parent ≠ "") (hroot : fs.find [parent, "root"] = some prt)
    (hfresh : fs.find [id, env.tmpName] = none)
    (htmp : env.tmpName ≠ "root")
    (herr : (driverApplyDiff env fs id parent).2.1 = some e) :
    e ≠ GoErr.fallback ∧
    (driverApplyDiff env fs id parent).2.2.find [id, env.tmpName] = none ∧
    (driverApplyDiff env fs id parent).2.2.find [id, "root"] = fs.find [id, "root"] := by
  have hnf : e ≠ GoErr.fallback := by
    intro hfb
    subst hfb
    exact applyDiff_no_late_fallback env fs id parent prt hp hroot herr
  refine ⟨hnf, ?_⟩
  obtain ⟨es, pes, hfs, hpar, hproot⟩ := find_two_shape fs parent "root" prt hroot
  subst hfs
  simp only [driverApplyDiff, if_neg hp, hroot] at herr ⊢
  by_cases h1 : env.tmpFail ∨ isDirOpt ((FsTree.dir es).find [id]) = false ∨
      (((FsTree.dir es).find [id, env.tmpName])).isSome
  · rw [if_pos h1] at herr ⊢
    exact ⟨hfresh, rfl⟩
  · rw [if_neg h1] at herr ⊢
    have hdir : isDirOpt ((FsTree.dir es).find [id]) = true := by
      rcases Bool.eq_false_or_eq_true (isDirOpt ((FsTree.dir es).find [id])) with hh | hh
      · exact hh
      · exact absurd (Or.inr (Or.inl hh)) h1
    obtain ⟨ies, hies⟩ := isDir_shape es id hdir
    have hRootNe : ("root" : String) ≠ env.tmpName := fun hh => htmp hh.symm
    have hclean : ∀ B X : List (String × FsTree),
        (((FsTree.dir (setE B id (FsTree.dir X))).setAt [id, env.tmpName] none).find
          [id, env.tmpName] = none) ∧
        (((FsTree.dir (setE B id (FsTree.dir X))).setAt [id, env.tmpName] none).find
          [id, "root"] = lookupE X "root") := by
      intro B X
      have e1 : (FsTree.dir (setE B id (FsTree.dir X))).setAt [id, env.tmpName] none =
          FsTree.dir (setE (setE B id (FsTree.dir X)) id
            (FsTree.dir (updE X env.tmpName none))) :=
        setAt_two _ X id env.tmpName none (lookupE_setE_self B id _)
      rw [e1]
      constructor
      · rw [find_two _ (updE X env.tmpName none) id env.tmpName (lookupE_setE_self _ id _)]
        exact lookupE_updE_self X env.tmpName none
      · rw [find_two _ (updE X env.tmpName none) id "root" (lookupE_setE_self _ id _)]
        exact lookupE_updE_ne X env.tmpName "root" none hRootNe
    have eA : (FsTree.dir es).setAt [id, env.tmpName] (some (FsTree.dir [])) =
        FsTree.dir (setE es id (FsTree.dir (updE ies env.tmpName (some (FsTree.dir []))))) :=
      setAt_two es ies id env.tmpName _ hies
    by_cases h2 : env.copyFail
    · rw [if_pos h2] at herr ⊢
      rw [eA]
      obtain ⟨g1, g2⟩ := hclean es (updE ies env.tmpName (some (FsTree.dir [])))
      refine ⟨g1, ?_⟩
      rw [g2, find_two es ies id "root" hies]
      exact lookupE_updE_ne ies env.tmpName "root" _ hRootNe
    · rw [if_neg h2] at herr ⊢
      have eB : (FsTree.dir (setE es id
            (FsTree.dir (updE ies env.tmpName (some (FsTree.dir [])))))).setAt
            [id, env.tmpName] (some (copyTree prt)) =
          FsTree.dir (setE (setE es id
            (FsTree.dir (updE ies env.tmpName (some (FsTree.dir []))))) id
            (FsTree.dir (updE (updE ies env.tmpName (some (FsTree.dir [])))
              env.tmpName (some (copyTree prt))))) :=
        setAt_two _ _ id env.tmpName _ (lookupE_setE_self es id _)
      by_cases h3 : env.extractFail
      · rw [if_pos h3] at herr ⊢
        rw [eA, eB]
        have eC : (FsTree.dir (setE (setE es id
              (FsTree.dir (updE ies env.tmpName (some (FsTree.dir []))))) id
              (FsTree.dir (updE (updE ies env.tmpName (some (FsTree.dir [])))
                env.tmpName (some (copyTree prt)))))).setAt [id, env.tmpName]
              (some (env.extractPartialFn (copyTree prt))) =
            FsTree.dir (setE (setE (setE es id
              (FsTree.dir (updE ies env.tmpName (some (FsTree.dir []))))) id
              (FsTree.dir (updE (updE ies env.tmpName (some (FsTree.dir [])))
                env.tmpName (some (copyTree prt))))) id
              (FsTree.dir (updE (updE (updE ies env.tmpName (some (FsTree.dir [])))
                env.tmpName (some (copyTree prt))) env.tmpName
                (some (env.extractPartialFn (copyTree prt)))))) :=
          setAt_two _ _ id env.tmpName _ (lookupE_setE_self _ id _)
        rw [eC]
        obtain ⟨g1, g2⟩ := hclean _ (updE (updE (updE ies env.tmpName (some (FsTree.dir [])))
          env.tmpName (some (copyTree prt))) env.tmpName
          (some (env.extractPartialFn (copyTree prt))))
        refine ⟨g1, ?_⟩
        rw [g2, find_two es ies id "root" hies]
        rw [lookupE_updE_ne _ env.tmpName "root" _ hRootNe,
            lookupE_updE_ne _ env.tmpName "root" _ hRootNe,
            lookupE_updE_ne _ env.tmpName "root" _ hRootNe]
      · rw [if_neg h3] at herr ⊢
        rw [eA, eB] at herr ⊢
        have eC : (FsTree.dir (setE (setE es id
              (FsTree.dir (updE ies env.tmpName (some (FsTree.dir []))))) id
              (FsTree.dir (updE (updE ies env.tmpName (some (FsTree.dir [])))
                env.tmpName (some (copyTree prt)))))).setAt [id, env.tmpName]
              (some (env.extractFn (copyTree prt))) =
            FsTree.dir (setE (setE (setE es id
              (FsTree.dir (updE ies env.tmpName (some (FsTree.dir []))))) id
              (FsTree.dir (updE (updE ies env.tmpName (some (FsTree.dir [])))
                env.tmpName (some (copyTree prt))))) id
              (FsTree.dir (updE (updE (updE ies env.tmpName (some (FsTree.dir [])))
                env.tmpName (some (copyTree prt))) env.tmpName
                (some (env.extractFn (copyTree prt)))))) :=
          setAt_two _ _ id env.tmpName _ (lookupE_setE_self _ id _)
        rw [eC] at herr ⊢
        have hfind : (FsTree.dir (setE (setE (setE es id
              (FsTree.dir (updE ies env.tmpName (some (FsTree.dir []))))) id
              (FsTree.dir (updE (updE ies env.tmpName (some (FsTree.dir [])))
                env.tmpName (some (copyTree prt))))) id
              (FsTree.dir (updE (updE (updE ies env.tmpName (some (FsTree.dir [])))
                env.tmpName (some (copyTree prt))) env.tmpName
                (some (env.extractFn (copyTree prt))))))).find [id, env.tmpName] =
            some (env.extractFn (copyTree prt)) := by
          rw [find_two _ _ id env.tmpName (lookupE_setE_self _ id _)]
          exact lookupE_updE_self _ env.tmpName _
        simp only [hfind] at herr ⊢
        by_cases h5 : renameTargetOk ((FsTree.dir (setE (setE (setE es id
              (FsTree.dir (updE ies env.tmpName (some (FsTree.dir []))))) id
              (FsTree.dir (updE (updE ies env.tmpName (some (FsTree.dir [])))
                env.tmpName (some (copyTree prt))))) id
              (FsTree.dir (updE (updE (updE ies env.tmpName (some (FsTree.dir [])))
                env.tmpName (some (copyTree prt))) env.tmpName
                (some (env.extractFn (copyTree prt))))))).find [id, "root"]) = true
        · rw [if_pos h5] at herr
          simp at herr
        · rw [if_neg h5] at herr ⊢
          obtain ⟨g1, g2⟩ := hclean _ (updE (updE (updE ies env.tmpName (some (FsTree.dir [])))
            env.tmpName (some (copyTree prt))) env.tmpName
            (some (env.extractFn (copyTree prt))))
          refine ⟨g1, ?_⟩
          rw [g2, find_two es ies id "root" hies]
          rw [lookupE_updE_ne _ env.tmpName "root" _ hRootNe,
              lookupE_updE_ne _ env.tmpName "root" _ hRootNe,
              lookupE_updE_ne _ env.tmpName "root" _ hRootNe]

/-- Two committed layers: parent `p` with one file in its root, and a
layer `c` with an empty root and a `mnt` mount point. -/
def fsTwoLayers : FsTree :=
  FsTree.dir [("p", FsTree.dir [("root", FsTree.dir [("f", FsTree.file 1)])]),
              ("c", FsTree.dir [("root", FsTree.dir []), ("mnt", FsTree.dir [])])]

/-- Diff-applier oracle whose extraction step fails. -/
def envDiffExtractFail : DiffEnv := { envDiffId with extractFail := true }

/-- Claim C3 (witness): a failure injected mid-extraction on layer
`c` over parent `p` leaves no temp directory and leaves the layer
root exactly as before the call. -/
theorem applyDiff_failure_rollback_witness :
    GoErr.io "extract" ≠ GoErr.fallback ∧
    (driverApplyDiff envDiffExtractFail fsTwoLayers "c" "p").2.2.find
      ["c", "tmproot1"] = none ∧
    (driverApplyDiff envDiffExtractFail fsTwoLayers "c" "p").2.2.find
      ["c", "root"] = fsTwoLayers.find ["c", "root"] :=
  applyDiff_failure_rollback envDiffExtractFail fsTwoLayers "c" "p"
    (FsTree.dir [("f", FsTree.file 1)]) (GoErr.io "extract")
    (by decide) rfl rfl (by decide) rfl

/-- Claim C4: on a successful `ApplyDiff` with a non-empty parent
whose root exists, the layer root is replaced by the fully built temp
directory (the hardlink copy of the parent root transformed by the
extraction engine) through the single rename, the `mnt` directory is
removed afterwards, the temp directory is gone (the rename consumed
it), and the returned size is exactly the byte count reported by the
external diff-extraction engine. -/
theorem applyDiff_success_commit (env : DiffEnv) (fs : FsTree) (id parent : String)
    (prt : FsTree)
    (hp : parent ≠ "") (hroot : fs.find [parent, "root"] = some prt)
    (htmpr : env.tmpName ≠ "root") (htmpm : env.tmpName ≠ "mnt")
    (hok : (driverApplyDiff env fs id parent).2.1 = none) :
    (driverApplyDiff env fs id parent).1 = env.extractSize ∧
    (driverApplyDiff env fs id parent).2.2.find [id, "root"] =
      some (env.extractFn prt) ∧
    (driverApplyDiff env fs id parent).2.2.find [id, "mnt"] = none ∧
    (driverApplyDiff env fs id parent).2.2.find [id, env.tmpName] = none := by
  obtain ⟨es, pes, hfs, hpar, hproot⟩ := find_two_shape fs parent "root" prt hroot
  subst hfs
  simp only [driverApplyDiff, if_neg hp, hroot] at hok ⊢
  by_cases h1 : env.tmpFail ∨ isDirOpt ((FsTree.dir es).find [id]) = false ∨
      (((FsTree.dir es).find [id, env.tmpName])).isSome
  · rw [if_pos h1] at hok
    simp at hok
  · rw [if_neg h1] at hok ⊢
    have hdir : isDirOpt ((FsTree.dir es).find [id]) = true := by
      rcases Bool.eq_false_or_eq_true (isDirOpt ((FsTree.dir es).find [id])) with hh | hh
      · exact hh
      · exact absurd (Or.inr (Or.inl hh)) h1
    obtain ⟨ies, hies⟩ := isDir_shape es id hdir
    by_cases h2 : env.copyFail
    · rw [if_pos h2] at hok
      simp at hok
    · rw [if_neg h2] at hok ⊢
      by_cases h3 : env.extractFail
      · rw [if_pos h3] at hok
        simp at hok
      · rw [if_neg h3] at hok ⊢
        rw [setAt_two es ies id env.tmpName (some (FsTree.dir [])) hies] at hok ⊢
        rw [setAt_two _ _ id env.tmpName (some (copyTree prt))
          (lookupE_setE_self _ id _)] at hok ⊢
        rw [setAt_two _ _ id env.tmpName (some (env.extractFn (copyTree prt)))
          (lookupE_setE_self _ id _)] at hok ⊢
        simp only [find_two _ _ id env.tmpName (lookupE_setE_self _ id _),
          lookupE_updE_self] at hok ⊢
        split at hok
        next h5 =>
          rw [if_pos h5]
          rw [setAt_two _ _ id env.tmpName none (lookupE_setE_self _ id _)]
          rw [setAt_two _ _ id "root" (some (env.extractFn (copyTree prt)))
            (lookupE_setE_self _ id _)]
          rw [setAt_two _ _ id "mnt" none (lookupE_setE_self _ id _)]
          refine ⟨rfl, ?_, ?_, ?_⟩
          · rw [find_two _ _ id "root" (lookupE_setE_self _ id _)]
            rw [lookupE_updE_ne _ "mnt" "root" none (by decide)]
            rw [lookupE_updE_self]
            rw [copyTree_eq]
          · rw [find_two _ _ id "mnt" (lookupE_setE_self _ id _)]
            exact lookupE_updE_self _ "mnt" none
          · rw [find_two _ _ id env.tmpName (lookupE_setE_self _ id _)]
            rw [lookupE_updE_ne _ "mnt" env.tmpName none htmpm]
            rw [lookupE_updE_ne _ "root" env.tmpName _ htmpr]
            exact lookupE_updE_self _ env.tmpName none
        next h5 =>
          simp at hok

/-- Claim C4 (witness): a successful apply of layer `c` over parent
`p` commits the engine output as the new root, removes `mnt`, leaves
no temp directory, and returns the engine byte count (7). -/
theorem applyDiff_success_commit_witness :
    (driverApplyDiff envDiffId fsTwoLayers "c" "p").1 = envDiffId.extractSize ∧
    (driverApplyDiff envDiffId fsTwoLayers "c" "p").2.2.find ["c", "root"] =
      some (envDiffId.extractFn (FsTree.dir [("f", FsTree.file 1)])) ∧
    (driverApplyDiff envDiffId fsTwoLayers "c" "p").2.2.find ["c", "mnt"] = none ∧
    (driverApplyDiff envDiffId fsTwoLayers "c" "p").2.2.find ["c", "tmproot1"] = none :=
  applyDiff_success_commit envDiffId fsTwoLayers "c" "p"
    (FsTree.dir [("f", FsTree.file 1)])
    (by decide) rfl (by decide) (by decide) rfl

/-- Resolution of a non-empty path in a directory: look up the head
entry and continue in it. -/
theorem find_cons (es : List (String × FsTree)) (a : String) (q : List String) :
    (FsTree.dir es).find (a :: q) = (lookupE es a).bind (fun c => c.find q) := by
  cases h : lookupE es a with
  | none => simp [FsTree.find, findAux, h]
  | some c => simp [FsTree.find, findAux, h]

/-- A one-component write on a directory updates its entry list. -/
theorem setAt_one (es : List (String × FsTree)) (a : String) (v : Option FsTree) :
    (FsTree.dir es).setAt [a] v = FsTree.dir (updE es a v) := by
  cases v with
  | some t => simp [FsTree.setAt, setAtAux, updE]
  | none => simp [FsTree.setAt, setAtAux, updE]

/-- Removing a name after writing it removes any pre-existing entries
of that name as well. -/
theorem removeE_setE (es : List (String × FsTree)) (k : String) (t : FsTree) :
    removeE (setE es k t) k = removeE es k := by
  induction es with
  | nil => simp [setE, removeE]
  | cons e rest ih =>
      obtain ⟨k0, t0⟩ := e
      by_cases h0 : k0 = k
      · simp [setE, removeE, h0]
      · simp [setE, removeE, h0, ih]

/-- Removing a name that is absent leaves the entry list unchanged. -/
theorem removeE_fresh (es : List (String × FsTree)) (k : String)
    (h : lookupE es k = none) : removeE es k = es := by
  induction es with
  | nil => simp [removeE]
  | cons e rest ih =>
      obtain ⟨k0, t0⟩ := e
      simp only [lookupE] at h
      by_cases h0 : k0 = k
      · rw [if_pos h0] at h
        exact Option.noConfusion h
      · rw [if_neg h0] at h
        simp [removeE, h0, ih h]

/-- Shape exposed by a successful two-component resolution in a
directory. -/
theorem find_two_shape_dir (es : List (String × FsTree)) (a b : String) (t : FsTree)
    (h : (FsTree.dir es).find [a, b] = some t) :
    ∃ ces, lookupE es a = some (FsTree.dir ces) ∧ lookupE ces b = some t := by
  obtain ⟨es', ces, heq, hpar, hlook⟩ := find_two_shape (FsTree.dir es) a b t h
  cases heq
  exact ⟨ces, hpar, hlook⟩

/-- A looked-up child contributes at most the link count of the whole
entry list. -/
theorem countInode_le_of_lookup (es : List (String × FsTree)) (k : String) (c : FsTree)
    (h : lookupE es k = some c) (i : Nat) : countInode c i ≤ countEntries es i := by
  induction es with
  | nil => simp [lookupE] at h
  | cons e rest ih =>
      obtain ⟨k0, t0⟩ := e
      simp only [lookupE] at h
      by_cases h0 : k0 = k
      · rw [if_pos h0] at h
        cases h
        simp only [countEntries]
        exact Nat.le_add_right _ _
      · rw [if_neg h0] at h
        have := ih h
        simp only [countEntries]
        omega

/-- Link counts of a subtree are bounded by those of the whole tree. -/
theorem countInode_le_of_find (p : List String) : ∀ (t sub : FsTree),
    t.find p = some sub → ∀ i, countInode sub i ≤ countInode t i := by
  induction p with
  | nil =>
      intro t sub h i
      simp only [FsTree.find, findAux] at h
      cases h
      exact Nat.le_refl _
  | cons k rest ih =>
      intro t sub h i
      cases t with
      | file j => simp [FsTree.find, findAux] at h
      | symlink s => simp [FsTree.find, findAux] at h
      | dir es =>
          rw [find_cons] at h
          cases hc : lookupE es k with
          | none => rw [hc] at h; exact Option.noConfusion h
          | some c =>
              rw [hc] at h
              simp only [Option.some_bind] at h
              have h1 := ih c sub h i
              have h2 := countInode_le_of_lookup es k c hc i
              calc countInode sub i ≤ countInode c i := h1
                _ ≤ countEntries es i := h2
                _ = countInode (FsTree.dir es) i := rfl

/-- A regular file found in a subtree gives that subtree a positive
link count for its inode. -/
theorem one_le_countInode_of_file (p : List String) (t : FsTree) (i : Nat)
    (h : t.find p = some (FsTree.file i)) : 1 ≤ countInode t i := by
  have := countInode_le_of_find p t (FsTree.file i) h i
  simpa [countInode] using this

/-- Oracle for the external steps of `Driver.Create`: injected
failures of the two `MkdirAs` calls made once the layer directory
exists, and of the Hardlink Copy Engine. `GetRootUIDGID` and the
creation of the home directory itself (`MkdirAllAs` on an existing
home) are modelled as succeeding. -/
structure CreateEnv where
  mkdirRootFail : Bool
  mkdirMntFail : Bool
  copyFail : Bool

/-- `Driver.Create`: make the layer directory (failing with no
cleanup if it already exists — the deferred cleanup is only installed
after this point, as in the source); for a base layer create `root`
only; for a child layer verify the parent directory and its `root`
exist (not-found error otherwise), create `root` and `mnt`, and
hardlink-copy the parent root into the child root. Any failure after
the layer directory was made removes the whole `home/<id>` subtree.
The final copy reads the parent root live; the unreachable `none`
fallback of that read (the parent root was checked two steps earlier
and only `[id]` entries have been touched since) is modelled as the
copy failing. -/
def create (env : CreateEnv) (fs : FsTree) (id parent : String) :
    Option GoErr × FsTree :=
  match fs with
  | FsTree.dir _ =>
    if (fs.find [id]).isSome = true then (some (GoErr.io "mkdir"), fs)
    else
      let fs1 := fs.setAt [id] (some (FsTree.dir []))
      if parent = "" then
        if env.mkdirRootFail then (some (GoErr.io "mkdir root"), fs1.setAt [id] none)
        else (none, fs1.setAt [id, "root"] (some (FsTree.dir [])))
      else
        if (fs1.find [parent]).isSome = false then
          (some (GoErr.notFound parent), fs1.setAt [id] none)
        else if (fs1.find [parent, "root"]).isSome = false then
          (some (GoErr.notFound (parent ++ "/root")), fs1.setAt [id] none)
        else
          if env.mkdirRootFail then (some (GoErr.io "mkdir root"), fs1.setAt [id] none)
          else
            let fs2 := fs1.setAt [id, "root"] (some (FsTree.dir []))
            if env.mkdirMntFail then (some (GoErr.io "mkdir mnt"), fs2.setAt [id] none)
            else
              let fs3 := fs2.setAt [id, "mnt"] (some (FsTree.dir []))
              if env.copyFail then (some (GoErr.io "copydir"), fs3.setAt [id] none)
              else
                match fs3.find [parent, "root"] with
                | some prt => (none, fs3.setAt [id, "root"] (some (copyTree prt)))
                | none => (some (GoErr.io "copydir"), fs3.setAt [id] none)
  | _ => (some (GoErr.io "home"), fs)

/-- On-disk state together with the inode store: inode contents
survive as long as at least one directory entry links to them. -/
structure FsState where
  tree : FsTree
  store : Nat → Option String

/-- `os.RemoveAll` on a path (as used by `Driver.Remove` and the
cleanup paths), with the filesystem semantics of link removal: after
the subtree is unlinked, inodes with no remaining links are
reclaimed; inodes still referenced elsewhere keep their content. -/
def removeAllGC (s : FsState) (p : List String) : FsState :=
  let t := s.tree.setAt p none
  { tree := t, store := fun i => if countInode t i = 0 then none else s.store i }

/-- Writing a present value is an entry replacement. -/
theorem updE_some (es : List (String × FsTree)) (k : String) (t : FsTree) :
    updE es k (some t) = setE es k t := rfl

/-- Writing an absent value is an entry removal. -/
theorem updE_none (es : List (String × FsTree)) (k : String) :
    updE es k none = removeE es k := rfl

/-- Claim C5: `Create(id, parent)` with a non-empty parent fails with
a not-found error whenever the parent directory or the parent `root`
is missing; and whenever `Create` fails after `home/<id>/` has been
made (here: the id was fresh, so the directory was made by this
call), the whole `home/<id>/` subtree is removed and the filesystem
is exactly what it was before the call: no partial layer is left
behind. -/
theorem create_parent_checks_and_cleanup (env : CreateEnv) (es : List (String × FsTree))
    (id parent : String)
    (hfresh : (FsTree.dir es).find [id] = none) :
    (parent ≠ "" →
      ((FsTree.dir es).find [parent] = none ∨
       (FsTree.dir es).find [parent, "root"] = none) →
      ∃ p, (create env (FsTree.dir es) id parent).1 = some (GoErr.notFound p)) ∧
    ((create env (FsTree.dir es) id parent).1 ≠ none →
      (create env (FsTree.dir es) id parent).2 = FsTree.dir es) := by
  have hfresh' : lookupE es id = none := by rw [find_one] at hfresh; exact hfresh
  have hc1 : ¬ (((FsTree.dir es).find [id]).isSome = true) := by rw [hfresh]; simp
  have e1 : (FsTree.dir es).setAt [id] (some (FsTree.dir [])) =
      FsTree.dir (updE es id (some (FsTree.dir []))) := setAt_one es id _
  have e2 : (FsTree.dir (updE es id (some (FsTree.dir [])))).setAt [id, "root"]
        (some (FsTree.dir [])) =
      FsTree.dir (setE (updE es id (some (FsTree.dir []))) id
        (FsTree.dir (updE [] "root" (some (FsTree.dir []))))) :=
    setAt_two (updE es id (some (FsTree.dir []))) [] id "root" (some (FsTree.dir []))
      (lookupE_updE_self es id (some (FsTree.dir [])))
  have e3 : (FsTree.dir (setE (updE es id (some (FsTree.dir []))) id
        (FsTree.dir (updE [] "root" (some (FsTree.dir [])))))).setAt [id, "mnt"]
        (some (FsTree.dir [])) =
      FsTree.dir (setE (setE (updE es id (some (FsTree.dir []))) id
        (FsTree.dir (updE [] "root" (some (FsTree.dir []))))) id
        (FsTree.dir (updE (updE [] "root" (some (FsTree.dir []))) "mnt"
          (some (FsTree.dir []))))) :=
    setAt_two _ (updE [] "root" (some (FsTree.dir []))) id "mnt" (some (FsTree.dir []))
      (lookupE_setE_self (updE es id (some (FsTree.dir []))) id _)
  have c1 : (FsTree.dir (updE es id (some (FsTree.dir [])))).setAt [id] none =
      FsTree.dir es := by
    rw [setAt_one]
    congr 1
    simp only [updE_some, updE_none]
    rw [removeE_setE, removeE_fresh es id hfresh']
  have c2 : (FsTree.dir (setE (updE es id (some (FsTree.dir []))) id
        (FsTree.dir (updE [] "root" (some (FsTree.dir [])))))).setAt [id] none =
      FsTree.dir es := by
    rw [setAt_one]
    congr 1
    simp only [updE_some, updE_none]
    rw [removeE_setE, removeE_setE, removeE_fresh es id hfresh']
  have c3 : (FsTree.dir (setE (setE (updE es id (some (FsTree.dir []))) id
        (FsTree.dir (updE [] "root" (some (FsTree.dir []))))) id
        (FsTree.dir (updE (updE [] "root" (some (FsTree.dir []))) "mnt"
          (some (FsTree.dir [])))))).setAt [id] none = FsTree.dir es := by
    rw [setAt_one]
    congr 1
    simp only [updE_some, updE_none]
    rw [removeE_setE, removeE_setE, removeE_setE, removeE_fresh es id hfresh']
  constructor
  · intro hp hmiss
    simp only [create]
    rw [if_neg hc1]
    rw [e1]
    rw [if_neg hp]
    by_cases hpi : parent = id
    · subst hpi
      have d1 : ¬ (((FsTree.dir (updE es parent (some (FsTree.dir [])))).find
          [parent]).isSome = false) := by
        rw [find_one, lookupE_updE_self]
        simp
      rw [if_neg d1]
      have d2 : ((FsTree.dir (updE es parent (some (FsTree.dir [])))).find
          [parent, "root"]).isSome = false := by
        rw [find_two _ [] parent "root" (lookupE_updE_self es parent _)]
        rfl
      rw [if_pos d2]
      exact ⟨parent ++ "/root", rfl⟩
    · have hsame : ∀ q, (FsTree.dir (updE es id (some (FsTree.dir [])))).find
          (parent :: q) = (FsTree.dir es).find (parent :: q) := by
        intro q
        rw [find_cons, find_cons, lookupE_updE_ne es id parent _ hpi]
      rcases hmiss with h | h
      · have d1 : ((FsTree.dir (updE es id (some (FsTree.dir [])))).find
            [parent]).isSome = false := by
          rw [hsame [], h]
          rfl
        rw [if_pos d1]
        exact ⟨parent, rfl⟩
      · by_cases h1 : (FsTree.dir es).find [parent] = none
        · have d1 : ((FsTree.dir (updE es id (some (FsTree.dir [])))).find
              [parent]).isSome = false := by
            rw [hsame [], h1]
            rfl
          rw [if_pos d1]
          exact ⟨parent, rfl⟩
        · have d1 : ¬ (((FsTree.dir (updE es id (some (FsTree.dir [])))).find
              [parent]).isSome = false) := by
            rw [hsame []]
            cases hx : (FsTree.dir es).find [parent] with
            | none => exact absurd hx h1
            | some c => simp
          rw [if_neg d1]
          have d2 : ((FsTree.dir (updE es id (some (FsTree.dir [])))).find
              [parent, "root"]).isSome = false := by
            rw [hsame ["root"], h]
            rfl
          rw [if_pos d2]
          exact ⟨parent ++ "/root", rfl⟩
  · intro hne
    simp only [create] at hne ⊢
    rw [if_neg hc1] at hne ⊢
    rw [e1] at hne ⊢
    by_cases hpe : parent = ""
    · rw [if_pos hpe] at hne ⊢
      by_cases hmr : env.mkdirRootFail
      · rw [if_pos hmr] at hne ⊢
        exact c1
      · rw [if_neg hmr] at hne
        exact absurd rfl hne
    · rw [if_neg hpe] at hne ⊢
      by_cases d1 : ((FsTree.dir (updE es id (some (FsTree.dir [])))).find
          [parent]).isSome = false
      · rw [if_pos d1] at hne ⊢
        exact c1
      · rw [if_neg d1] at hne ⊢
        by_cases d2 : ((FsTree.dir (updE es id (some (FsTree.dir [])))).find
            [parent, "root"]).isSome = false
        · rw [if_pos d2] at hne ⊢
          exact c1
        · rw [if_neg d2] at hne ⊢
          by_cases hmr : env.mkdirRootFail
          · rw [if_pos hmr] at hne ⊢
            exact c1
          · rw [if_neg hmr] at hne ⊢
            rw [e2] at hne ⊢
            by_cases hmm : env.mkdirMntFail
            · rw [if_pos hmm] at hne ⊢
              exact c2
            · rw [if_neg hmm] at hne ⊢
              rw [e3] at hne ⊢
              by_cases hcf : env.copyFail
              · rw [if_pos hcf] at hne ⊢
                exact c3
              · rw [if_neg hcf] at hne ⊢
                split at hne
                next prt hm =>
                  exact absurd rfl hne
                next hm =>
                  simp only [hm]
                  exact c3

/-- `Create` oracle with no injected failures. -/
def envCreateOk : CreateEnv :=
  { mkdirRootFail := false, mkdirMntFail := false, copyFail := false }

/-- Home content with one committed parent layer `p`. -/
def esSample : List (String × FsTree) :=
  [("p", FsTree.dir [("root", FsTree.dir [("f", FsTree.file 1)])])]

/-- Claim C5 (witness): creating layer `x` with missing parent `q`
yields a not-found error. -/
theorem create_parent_checks_and_cleanup_witness :
    ∃ p, (create envCreateOk (FsTree.dir esSample) "x" "q").1 =
      some (GoErr.notFound p) :=
  (create_parent_checks_and_cleanup envCreateOk esSample "x" "q" rfl).1
    (by decide) (Or.inl rfl)

/-- Claim C6: after a successful `Create(id, parent)` with a
non-empty parent, the child root is the hardlink copy of the parent
root — the identical tree, so every regular file (all of them are
unmodified at this point) carries the same inode at the same relative
path as the parent copy — and a subsequent `Remove(parent)` leaves
the child root intact and reclaims none of the inodes the child still
links to: the shared file contents survive unchanged. -/
theorem create_hardlink_sharing (env : CreateEnv) (es : List (String × FsTree))
    (id parent : String) (prt : FsTree) (store : Nat → Option String)
    (hfresh : (FsTree.dir es).find [id] = none)
    (hp : parent ≠ "")
    (hprt : (FsTree.dir es).find [parent, "root"] = some prt)
    (hok : (create env (FsTree.dir es) id parent).1 = none) :
    (create env (FsTree.dir es) id parent).2.find [id, "root"] = some prt ∧
    (∀ q i, prt.find q = some (FsTree.file i) →
      (create env (FsTree.dir es) id parent).2.find ([id, "root"] ++ q) =
        some (FsTree.file i)) ∧
    (removeAllGC ⟨(create env (FsTree.dir es) id parent).2, store⟩ [parent]).tree.find
        [id, "root"] = some prt ∧
    (∀ q i, prt.find q = some (FsTree.file i) →
      (removeAllGC ⟨(create env (FsTree.dir es) id parent).2, store⟩ [parent]).store i =
        store i) := by
  have hfresh' : lookupE es id = none := by rw [find_one] at hfresh; exact hfresh
  have hc1 : ¬ (((FsTree.dir es).find [id]).isSome = true) := by rw [hfresh]; simp
  obtain ⟨pes, hpar, hproot⟩ := find_two_shape_dir es parent "root" prt hprt
  by_cases hpi : parent = id
  · exfalso
    rw [hpi, hfresh'] at hpar
    exact Option.noConfusion hpar
  have e1 : (FsTree.dir es).setAt [id] (some (FsTree.dir [])) =
      FsTree.dir (updE es id (some (FsTree.dir []))) := setAt_one es id _
  have e2 : (FsTree.dir (updE es id (some (FsTree.dir [])))).setAt [id, "root"]
        (some (FsTree.dir [])) =
      FsTree.dir (setE (updE es id (some (FsTree.dir []))) id
        (FsTree.dir (updE [] "root" (some (FsTree.dir []))))) :=
    setAt_two (updE es id (some (FsTree.dir []))) [] id "root" (some (FsTree.dir []))
      (lookupE_updE_self es id (some (FsTree.dir [])))
  have e3 : (FsTree.dir (setE (updE es id (some (FsTree.dir []))) id
        (FsTree.dir (updE [] "root" (some (FsTree.dir [])))))).setAt [id, "mnt"]
        (some (FsTree.dir [])) =
      FsTree.dir (setE (setE (updE es id (some (FsTree.dir []))) id
        (FsTree.dir (updE [] "root" (some (FsTree.dir []))))) id
        (FsTree.dir (updE (updE [] "root" (some (FsTree.dir []))) "mnt"
          (some (FsTree.dir []))))) :=
    setAt_two _ (updE [] "root" (some (FsTree.dir []))) id "mnt" (some (FsTree.dir []))
      (lookupE_setE_self (updE es id (some (FsTree.dir []))) id _)
  have e4 : (FsTree.dir (setE (setE (updE es id (some (FsTree.dir []))) id
        (FsTree.dir (updE [] "root" (some (FsTree.dir []))))) id
        (FsTree.dir (updE (updE [] "root" (some (FsTree.dir []))) "mnt"
          (some (FsTree.dir [])))))).setAt [id, "root"] (some (copyTree prt)) =
      FsTree.dir (setE (setE (setE (updE es id (some (FsTree.dir []))) id
        (FsTree.dir (updE [] "root" (some (FsTree.dir []))))) id
        (FsTree.dir (updE (updE [] "root" (some (FsTree.dir []))) "mnt"
          (some (FsTree.dir []))))) id
        (FsTree.dir (updE (updE (updE [] "root" (some (FsTree.dir []))) "mnt"
          (some (FsTree.dir []))) "root" (some (copyTree prt))))) :=
    setAt_two _ (updE (updE [] "root" (some (FsTree.dir []))) "mnt"
        (some (FsTree.dir []))) id "root" (some (copyTree prt))
      (lookupE_setE_self _ id _)
  simp only [create] at hok ⊢
  rw [if_neg hc1] at hok ⊢
  rw [e1] at hok ⊢
  rw [if_neg hp] at hok ⊢
  have hsame : ∀ q, (FsTree.dir (updE es id (some (FsTree.dir [])))).find
      (parent :: q) = (FsTree.dir es).find (parent :: q) := by
    intro q
    rw [find_cons, find_cons, lookupE_updE_ne es id parent _ hpi]
  have d1 : ¬ (((FsTree.dir (updE es id (some (FsTree.dir [])))).find
      [parent]).isSome = false) := by
    rw [hsame [], find_one, hpar]
    simp
  have d2 : ¬ (((FsTree.dir (updE es id (some (FsTree.dir [])))).find
      [parent, "root"]).isSome = false) := by
    rw [hsame ["root"], hprt]
    simp
  rw [if_neg d1, if_neg d2] at hok ⊢
  by_cases hmr : env.mkdirRootFail
  · rw [if_pos hmr] at hok
    simp at hok
  · rw [if_neg hmr] at hok ⊢
    rw [e2] at hok ⊢
    by_cases hmm : env.mkdirMntFail
    · rw [if_pos hmm] at hok
      simp at hok
    · rw [if_neg hmm] at hok ⊢
      rw [e3] at hok ⊢
      by_cases hcf : env.copyFail
      · rw [if_pos hcf] at hok
        simp at hok
      · rw [if_neg hcf] at hok ⊢
        have hlive : (FsTree.dir (setE (setE (updE es id (some (FsTree.dir []))) id
            (FsTree.dir (updE [] "root" (some (FsTree.dir []))))) id
            (FsTree.dir (updE (updE [] "root" (some (FsTree.dir []))) "mnt"
              (some (FsTree.dir [])))))).find [parent, "root"] = some prt := by
          rw [find_cons]
          rw [lookupE_setE_ne _ id parent _ hpi, lookupE_setE_ne _ id parent _ hpi,
              lookupE_updE_ne es id parent _ hpi]
          rw [hpar]
          simp only [Option.some_bind]
          rw [find_one]
          exact hproot
        simp only [hlive] at hok ⊢
        rw [e4]
        have hfound : (FsTree.dir (setE (setE (setE (updE es id (some (FsTree.dir []))) id
            (FsTree.dir (updE [] "root" (some (FsTree.dir []))))) id
            (FsTree.dir (updE (updE [] "root" (some (FsTree.dir []))) "mnt"
              (some (FsTree.dir []))))) id
            (FsTree.dir (updE (updE (updE [] "root" (some (FsTree.dir []))) "mnt"
              (some (FsTree.dir []))) "root" (some (copyTree prt)))))).find
            [id, "root"] = some prt := by
          rw [find_two _ _ id "root" (lookupE_setE_self _ id _), lookupE_updE_self,
            copyTree_eq]
        have hlook : lookupE (updE (setE (setE (setE (updE es id (some (FsTree.dir []))) id
            (FsTree.dir (updE [] "root" (some (FsTree.dir []))))) id
            (FsTree.dir (updE (updE [] "root" (some (FsTree.dir []))) "mnt"
              (some (FsTree.dir []))))) id
            (FsTree.dir (updE (updE (updE [] "root" (some (FsTree.dir []))) "mnt"
              (some (FsTree.dir []))) "root" (some (copyTree prt))))) parent none) id =
            some (FsTree.dir (updE (updE (updE [] "root" (some (FsTree.dir []))) "mnt"
              (some (FsTree.dir []))) "root" (some (copyTree prt)))) := by
          rw [lookupE_updE_ne _ parent id none (fun hh => hpi hh.symm)]
          exact lookupE_setE_self _ id _
        have hrem : (FsTree.dir (updE (setE (setE (setE (updE es id
            (some (FsTree.dir []))) id
            (FsTree.dir (updE [] "root" (some (FsTree.dir []))))) id
            (FsTree.dir (updE (updE [] "root" (some (FsTree.dir []))) "mnt"
              (some (FsTree.dir []))))) id
            (FsTree.dir (updE (updE (updE [] "root" (some (FsTree.dir []))) "mnt"
              (some (FsTree.dir []))) "root" (some (copyTree prt)))))
            parent none)).find [id, "root"] = some prt := by
          rw [find_two _ _ id "root" hlook, lookupE_updE_self, copyTree_eq]
        refine ⟨hfound, ?_, ?_, ?_⟩
        · intro q i hq
          rw [find_append, hfound]
          simpa using hq
        · simp only [removeAllGC]
          rw [setAt_one]
          exact hrem
        · intro q i hq
          simp only [removeAllGC]
          rw [setAt_one]
          have h1 : 1 ≤ countInode prt i := one_le_countInode_of_file q prt i hq
          have h2 := countInode_le_of_find [id, "root"] _ prt hrem i
          rw [if_neg (by omega)]

/-- Inode contents for the witness: inode 1 holds some file data. -/
def storeSample : Nat → Option String :=
  fun i => if i = 1 then some "contents" else none

/-- Claim C6 (witness): creating child `c` from parent `p`, the child
root equals the parent root tree (inode 1 shared at path `f`), and
removing `p` keeps the child root and the content of inode 1. -/
theorem create_hardlink_sharing_witness :
    (create envCreateOk (FsTree.dir esSample) "c" "p").2.find ["c", "root"] =
      some (FsTree.dir [("f", FsTree.file 1)]) ∧
    (∀ q i, (FsTree.dir [("f", FsTree.file 1)]).find q = some (FsTree.file i) →
      (create envCreateOk (FsTree.dir esSample) "c" "p").2.find (["c", "root"] ++ q) =
        some (FsTree.file i)) ∧
    (removeAllGC ⟨(create envCreateOk (FsTree.dir esSample) "c" "p").2, storeSample⟩
        ["p"]).tree.find ["c", "root"] = some (FsTree.dir [("f", FsTree.file 1)]) ∧
    (∀ q i, (FsTree.dir [("f", FsTree.file 1)]).find q = some (FsTree.file i) →
      (removeAllGC ⟨(create envCreateOk (FsTree.dir esSample) "c" "p").2, storeSample⟩
        ["p"]).store i = storeSample i) :=
  create_hardlink_sharing envCreateOk esSample "c" "p"
    (FsTree.dir [("f", FsTree.file 1)]) storeSample rfl (by decide) rfl rfl

end Hardlinks
